import Mathlib

/-!
Shallow embedding of the bookshop back-office order core
(`src/controllers/transaction.controller.ts`, first revision in the file):
order creation (`createTransaction`) with its validation pipeline and atomic
commit, the paged listing (`getAllTransactions`), the detail read
(`getTransactionDetail`) and the statistics aggregation
(`getTransactionStatistics`), together with proofs of the specified
properties.

Modelling conventions: JS numbers and Prisma `Decimal` values are `ℚ`;
database tables are lists of structures; soft deletion (`deleted_at`
null / non-null) is a Boolean `deleted` flag; Prisma's generated order ids
are modelled as consecutive naturals (`st.orders.length` is the next fresh
id); a missing string field is the empty string (JS falsiness of `""`).
-/

/-- A row of the `genre` table (`id`, `name`, `deleted_at`). -/
structure Genre where
  id : String
  name : String
  deleted : Bool
deriving DecidableEq, Repr

/-- A row of the `book` table, restricted to the fields the transaction
controller reads (`id`, `title`, `price`, `stock_quantity`, `genre_id`,
`deleted_at`). -/
structure Book where
  id : String
  title : String
  price : ℚ
  stock_quantity : ℚ
  genre_id : String
  deleted : Bool
deriving DecidableEq, Repr

/-- A row of the `orderItem` table: the stored `price` is the snapshot taken
at commit time (`price: book.price` in the create payload). -/
structure OrderItem where
  book_id : String
  quantity : ℚ
  price : ℚ
deriving DecidableEq, Repr

/-- A row of the `order` table together with its owned `order_items`. -/
structure Order where
  id : Nat
  user_id : String
  total_price : ℚ
  order_items : List OrderItem
deriving DecidableEq, Repr

/-- The database state visible to the transaction controller.  `orders` is
kept in creation order (`created_at` ascending), so `created_at desc`
listings read it reversed. -/
structure State where
  users : List String
  genres : List Genre
  books : List Book
  orders : List Order
deriving DecidableEq, Repr

/-- One element of the request body's `items` array.  The quantity is a JS
number, hence `ℚ`; a missing or non-string `book_id` is modelled as `""`. -/
structure ReqItem where
  book_id : String
  quantity : ℚ
deriving DecidableEq, Repr

/-- The `CreateTransactionRequest` body (`user_id`, `items`). -/
structure CreateReq where
  user_id : String
  items : List ReqItem
deriving DecidableEq, Repr

/-- The distinct early-return error responses of `createTransaction`, one
constructor per `res.status(...)` site in the validation pipeline. -/
inductive TxErr where
  | userIdRequired
  | itemsRequired
  | invalidItem
  | quantityNotInteger
  | duplicateBooks
  | userNotFound
  | booksNotFound
  | bookMissing
  | insufficientStock
deriving DecidableEq, Repr

/-- The spec's error taxonomy (§7). -/
inductive ErrKind where
  | InvalidRequest
  | DuplicateLineItem
  | UserNotFound
  | BookNotFound
  | InsufficientStock
deriving DecidableEq, Repr

/-- Classify each concrete error response under the spec's taxonomy: the
four malformed-request responses (missing `user_id`, empty `items`, invalid
item fields, fractional quantity) are all `InvalidRequest`; both 404
book responses are `BookNotFound`. -/
def TxErr.kind : TxErr → ErrKind
  | .userIdRequired => .InvalidRequest
  | .itemsRequired => .InvalidRequest
  | .invalidItem => .InvalidRequest
  | .quantityNotInteger => .InvalidRequest
  | .duplicateBooks => .DuplicateLineItem
  | .userNotFound => .UserNotFound
  | .booksNotFound => .BookNotFound
  | .bookMissing => .BookNotFound
  | .insufficientStock => .InsufficientStock

/-- The per-item loop of the validation pipeline: for each item in order,
`!item.book_id || !item.quantity || typeof item.quantity !== 'number' ||
item.quantity <= 0` (over `ℚ` this collapses to `book_id = "" ∨ quantity ≤ 0`)
and then `!Number.isInteger(item.quantity)` (`den ≠ 1`). -/
def checkItems : List ReqItem → Option TxErr
  | [] => none
  | it :: rest =>
    if it.book_id = "" ∨ it.quantity ≤ 0 then some .invalidItem
    else if it.quantity.den ≠ 1 then some .quantityNotInteger
    else checkItems rest

/-- The batched catalog lookup
`prisma.book.findMany({where: {id: {in: book_ids}, deleted_at: null}})`. -/
def fetchedBooks (st : State) (req : CreateReq) : List Book :=
  st.books.filter fun b =>
    decide (b.id ∈ req.items.map ReqItem.book_id) && !b.deleted

/-- The stock-sufficiency loop over `items`, looking each item up in the
`bookMap` built from the fetched books (`bookMap.get` is `find?` on the
fetched list). -/
def checkStock (books : List Book) : List ReqItem → Option TxErr
  | [] => none
  | it :: rest =>
    match books.find? (fun b => b.id = it.book_id) with
    | none => some .bookMissing
    | some b =>
      if b.stock_quantity < it.quantity then some .insufficientStock
      else checkStock books rest

/-- The whole validation pipeline of `createTransaction`, in source order:
missing `user_id`; empty `items`; the per-item loop; the `Set`-based
duplicate check (`new Set(ids).size !== ids.length` is exactly failure of
`Nodup`); the user lookup; the batched book lookup compared by length; the
stock loop.  `none` means every check passed. -/
def validationError (st : State) (req : CreateReq) : Option TxErr :=
  if req.user_id = "" then some .userIdRequired
  else if req.items.isEmpty then some .itemsRequired
  else
    match checkItems req.items with
    | some e => some e
    | none =>
      if ¬ (req.items.map ReqItem.book_id).Nodup then some .duplicateBooks
      else if req.user_id ∉ st.users then some .userNotFound
      else if (fetchedBooks st req).length ≠ (req.items.map ReqItem.book_id).length then
        some .booksNotFound
      else checkStock (fetchedBooks st req) req.items

/-- Build one `order_items` create payload from an input item: quantity as
requested, price snapshotted from the fetched book (`bookMap.get(id)!`);
the `none` branch mirrors the non-null assertion and is dead once
validation has passed. -/
def lineOf (books : List Book) (it : ReqItem) : OrderItem :=
  match books.find? (fun b => b.id = it.book_id) with
  | some b => { book_id := it.book_id, quantity := it.quantity, price := b.price }
  | none => { book_id := it.book_id, quantity := it.quantity, price := 0 }

/-- The stock updates of the commit: one
`update({where: {id}, data: {stock_quantity: {decrement: quantity}}})`
per input item, applied in sequence. -/
def decStocks (books : List Book) : List ReqItem → List Book
  | [] => books
  | it :: rest =>
    decStocks
      (books.map fun b =>
        if b.id = it.book_id then
          { b with stock_quantity := b.stock_quantity - it.quantity }
        else b)
      rest

/-- The body of `prisma.$transaction`: accumulate the line payloads and the
total price from the pre-fetched `bookMap`, create the order row (fresh id)
with its `order_items`, then run every stock decrement.  All of it commits
as one atomic unit. -/
def commitTx (st : State) (req : CreateReq) : State × Order :=
  let lines := req.items.map (lineOf (fetchedBooks st req))
  let total := (lines.map fun l => l.price * l.quantity).sum
  let o : Order :=
    { id := st.orders.length
      user_id := req.user_id
      total_price := total
      order_items := lines }
  ({ st with orders := st.orders ++ [o], books := decStocks st.books req.items }, o)

/-- The success response body (`transaction_id`, `total_quantity`,
`total_price`). -/
structure OrderResp where
  transaction_id : Nat
  total_quantity : ℚ
  total_price : ℚ
deriving DecidableEq, Repr

/-- `createTransaction`: run the validation pipeline; on the first failing
check return its error response with the database untouched; otherwise run
the atomic commit and return the success payload. -/
def createTransaction (st : State) (req : CreateReq) : State × Except TxErr OrderResp :=
  match validationError st req with
  | some e => (st, .error e)
  | none =>
    let p := commitTx st req
    (p.1, .ok
      { transaction_id := p.2.id
        total_quantity := (req.items.map ReqItem.quantity).sum
        total_price := p.2.total_price })

/-- The database state after a request is handled, whatever the outcome. -/
def step (st : State) (req : CreateReq) : State :=
  (createTransaction st req).1

/-- Handle a sequence of order submissions one after the other. -/
def runAll : State → List CreateReq → State
  | st, [] => st
  | st, r :: rs => runAll (step st r) rs

/-- Stock of the book with the given id (`0` if absent). -/
def stockOf (st : State) (bid : String) : ℚ :=
  ((st.books.find? (fun b => b.id = bid)).map Book.stock_quantity).getD 0

/-- Total quantity a list of order rows takes from one book. -/
def soldQty (orders : List Order) (bid : String) : ℚ :=
  (orders.map fun o =>
    ((o.order_items.filter fun l => l.book_id = bid).map OrderItem.quantity).sum).sum

/-- Total quantity a request's items ask of one book. -/
def reqQty (items : List ReqItem) (bid : String) : ℚ :=
  ((items.filter fun it => it.book_id = bid).map ReqItem.quantity).sum

/-! ## Spec-side predicates for the validation pipeline (§4.1) -/

/-- Check 1 of the spec: `items` non-empty, every item carrying a present
`book_id` and a positive integer quantity (§7 counts missing fields and
non-positive quantities as `InvalidRequest`). -/
def itemsWellFormed (req : CreateReq) : Prop :=
  req.items ≠ [] ∧ ∀ it ∈ req.items, it.book_id ≠ "" ∧ 0 < it.quantity ∧ it.quantity.den = 1

/-- Check 2: `bookId` values pairwise distinct. -/
def noDupLines (req : CreateReq) : Prop :=
  (req.items.map ReqItem.book_id).Nodup

/-- Check 3: the purchaser resolves in the user store. -/
def purchaserKnown (st : State) (req : CreateReq) : Prop :=
  req.user_id ∈ st.users

/-- Check 4: every `bookId` resolves to a non-soft-deleted book. -/
def booksResolvable (st : State) (req : CreateReq) : Prop :=
  ∀ it ∈ req.items, ∃ b ∈ st.books, b.id = it.book_id ∧ b.deleted = false

/-- Check 5: every requested quantity is at most the live book's stock. -/
def stockSufficient (st : State) (req : CreateReq) : Prop :=
  ∀ it ∈ req.items, ∀ b ∈ st.books,
    b.id = it.book_id → b.deleted = false → it.quantity ≤ b.stock_quantity

instance : DecidablePred itemsWellFormed := fun req => by
  unfold itemsWellFormed; infer_instance

instance : DecidablePred noDupLines := fun req => by
  unfold noDupLines; infer_instance

instance (st : State) : DecidablePred (purchaserKnown st) := fun req => by
  unfold purchaserKnown; infer_instance

instance (st : State) : DecidablePred (booksResolvable st) := fun req => by
  unfold booksResolvable; infer_instance

instance (st : State) : DecidablePred (stockSufficient st) := fun req => by
  unfold stockSufficient; infer_instance

/-! ## Lemmas about the individual checks -/

theorem checkItems_eq_none_iff (items : List ReqItem) :
    checkItems items = none ↔
      ∀ it ∈ items, it.book_id ≠ "" ∧ 0 < it.quantity ∧ it.quantity.den = 1 := by
  induction items with
  | nil => simp [checkItems]
  | cons it rest ih =>
    by_cases h1 : it.book_id = "" ∨ it.quantity ≤ 0
    · simp only [checkItems, if_pos h1, List.mem_cons]
      constructor
      · intro h; cases h
      · intro h
        rcases h it (Or.inl rfl) with ⟨hb, hq, _⟩
        rcases h1 with h1 | h1
        · exact absurd h1 hb
        · exact absurd h1 (not_le.mpr hq)
    · by_cases h2 : it.quantity.den ≠ 1
      · simp only [checkItems, if_neg h1, if_pos h2, List.mem_cons]
        constructor
        · intro h; cases h
        · intro h; exact absurd (h it (Or.inl rfl)).2.2 h2
      · simp only [checkItems, if_neg h1, if_neg h2, List.mem_cons]
        rw [ih]
        push_neg at h1 h2
        constructor
        · intro h x hx
          rcases hx with hx | hx
          · subst hx; exact ⟨h1.1, h1.2, h2⟩
          · exact h x hx
        · intro h x hx; exact h x (Or.inr hx)

theorem checkItems_kind {items : List ReqItem} {e : TxErr}
    (h : checkItems items = some e) : e.kind = .InvalidRequest := by
  induction items with
  | nil => simp [checkItems] at h
  | cons it rest ih =>
    simp only [checkItems] at h
    split at h
    · cases h; rfl
    · split at h
      · cases h; rfl
      · exact ih h

theorem mem_fetchedBooks {st : State} {req : CreateReq} {b : Book} :
    b ∈ fetchedBooks st req ↔
      b ∈ st.books ∧ b.id ∈ req.items.map ReqItem.book_id ∧ b.deleted = false := by
  simp [fetchedBooks, List.mem_filter, Bool.and_eq_true, decide_eq_true_eq,
    Bool.not_eq_true', and_assoc]

theorem fetchedBooks_map_id_nodup {st : State} (req : CreateReq)
    (hwf : (st.books.map Book.id).Nodup) :
    ((fetchedBooks st req).map Book.id).Nodup :=
  ((List.filter_sublist st.books).map Book.id).nodup hwf

/-- Under unique book ids in the store and a duplicate-free request, the
`books.length !== book_ids.length` comparison of the source is exactly
resolvability of every requested id to a live book. -/
theorem fetchedBooks_length_iff {st : State} {req : CreateReq}
    (hwf : (st.books.map Book.id).Nodup)
    (hnd : (req.items.map ReqItem.book_id).Nodup) :
    (fetchedBooks st req).length = (req.items.map ReqItem.book_id).length ↔
      booksResolvable st req := by
  have hsubF : ((fetchedBooks st req).map Book.id) ⊆ req.items.map ReqItem.book_id := by
    intro x hx
    rcases List.mem_map.mp hx with ⟨b, hb, rfl⟩
    exact (mem_fetchedBooks.mp hb).2.1
  have hFnodup := fetchedBooks_map_id_nodup req hwf
  have hsubperm : List.Subperm ((fetchedBooks st req).map Book.id)
      (req.items.map ReqItem.book_id) :=
    List.subperm_of_subset hFnodup hsubF
  have hlenF : ((fetchedBooks st req).map Book.id).length = (fetchedBooks st req).length :=
    List.length_map _ _
  constructor
  · intro hlen it hit
    have hperm : List.Perm ((fetchedBooks st req).map Book.id)
        (req.items.map ReqItem.book_id) :=
      hsubperm.perm_of_length_le (by omega)
    have hmem : it.book_id ∈ (fetchedBooks st req).map Book.id :=
      hperm.mem_iff.mpr (List.mem_map_of_mem _ hit)
    rcases List.mem_map.mp hmem with ⟨b, hb, hbid⟩
    have hm := mem_fetchedBooks.mp hb
    exact ⟨b, hm.1, hbid, hm.2.2⟩
  · intro hres
    have hsub2 : (req.items.map ReqItem.book_id) ⊆ (fetchedBooks st req).map Book.id := by
      intro x hx
      rcases List.mem_map.mp hx with ⟨it, hit, rfl⟩
      rcases hres it hit with ⟨b, hb, hbid, hdel⟩
      exact List.mem_map.mpr
        ⟨b, mem_fetchedBooks.mpr ⟨hb, by rw [hbid]; exact List.mem_map_of_mem _ hit, hdel⟩, hbid⟩
    have h2 : List.Subperm (req.items.map ReqItem.book_id)
        ((fetchedBooks st req).map Book.id) :=
      List.subperm_of_subset hnd hsub2
    have hle1 := hsubperm.length_le
    have hle2 := h2.length_le
    omega

/-- When every requested id resolves, `bookMap.get(item.book_id)` succeeds
and returns a live book of the store with that id. -/
theorem find?_fetchedBooks {st : State} {req : CreateReq} {it : ReqItem}
    (hit : it ∈ req.items) (hres : booksResolvable st req) :
    ∃ b, (fetchedBooks st req).find? (fun b => b.id = it.book_id) = some b ∧
      b ∈ st.books ∧ b.id = it.book_id ∧ b.deleted = false := by
  rcases hres it hit with ⟨b0, hb0, hid, hdel⟩
  have hb0F : b0 ∈ fetchedBooks st req :=
    mem_fetchedBooks.mpr ⟨hb0, by rw [hid]; exact List.mem_map_of_mem _ hit, hdel⟩
  have hsome : ((fetchedBooks st req).find? (fun b => b.id = it.book_id)).isSome := by
    rw [List.find?_isSome]
    exact ⟨b0, hb0F, by simp [hid]⟩
  rcases Option.isSome_iff_exists.mp hsome with ⟨b, hb⟩
  have hpb := List.find?_some hb
  have hmem : b ∈ fetchedBooks st req := List.mem_of_find?_eq_some hb
  have hm := mem_fetchedBooks.mp hmem
  exact ⟨b, hb, hm.1, by simpa using hpb, hm.2.2⟩

/-- Books of one store sharing an id are equal when store ids are unique. -/
theorem book_eq_of_id_eq {st : State} (hwf : (st.books.map Book.id).Nodup)
    {b b' : Book} (hb : b ∈ st.books) (hb' : b' ∈ st.books) (h : b.id = b'.id) :
    b = b' :=
  List.inj_on_of_nodup_map hwf hb hb' h

/-- The stock loop succeeds exactly when every line's quantity fits the
stock of the (unique) live book it resolves to. -/
theorem checkStock_eq_none_iff {st : State} {req : CreateReq}
    (hwf : (st.books.map Book.id).Nodup) (hres : booksResolvable st req)
    (its : List ReqItem) (hsub : its ⊆ req.items) :
    checkStock (fetchedBooks st req) its = none ↔
      ∀ it ∈ its, ∀ b ∈ st.books,
        b.id = it.book_id → b.deleted = false → it.quantity ≤ b.stock_quantity := by
  induction its with
  | nil => simp [checkStock]
  | cons it rest ih =>
    have hit : it ∈ req.items := hsub (List.mem_cons_self _ _)
    rcases find?_fetchedBooks hit hres with ⟨b, hfind, hbmem, hbid, hbdel⟩
    have hrest : rest ⊆ req.items := fun x hx => hsub (List.mem_cons_of_mem _ hx)
    have huniq : ∀ b' ∈ st.books, b'.id = it.book_id → b'.deleted = false → b' = b := by
      intro b' hb' hid' _
      exact book_eq_of_id_eq hwf hb' hbmem (hid'.trans hbid.symm)
    simp only [checkStock, hfind]
    by_cases hlt : b.stock_quantity < it.quantity
    · rw [if_pos hlt]
      simp only [List.mem_cons]
      constructor
      · intro h; cases h
      · intro h
        exact absurd (h it (Or.inl rfl) b hbmem hbid hbdel) (not_le.mpr hlt)
    · rw [if_neg hlt, ih hrest]
      simp only [List.mem_cons]
      constructor
      · intro h x hx
        rcases hx with hx | hx
        · subst hx
          intro b' hb' hid' hdel'
          rw [huniq b' hb' hid' hdel']
          exact not_lt.mp hlt
        · exact h x hx
      · intro h x hx; exact h x (Or.inr hx)

/-- When every id resolves, the only error the stock loop can raise is the
insufficient-stock response (the inner book-not-found return is dead). -/
theorem checkStock_some_insufficient {st : State} {req : CreateReq}
    (hres : booksResolvable st req)
    (its : List ReqItem) (hsub : its ⊆ req.items) {e : TxErr}
    (h : checkStock (fetchedBooks st req) its = some e) :
    e = .insufficientStock := by
  induction its with
  | nil => simp [checkStock] at h
  | cons it rest ih =>
    have hit : it ∈ req.items := hsub (List.mem_cons_self _ _)
    rcases find?_fetchedBooks hit hres with ⟨b, hfind, -, -, -⟩
    simp only [checkStock, hfind] at h
    split at h
    · cases h; rfl
    · exact ih (fun x hx => hsub (List.mem_cons_of_mem _ hx)) h

/-- Once `user_id` is present and the items pass the per-item loop, the
pipeline reduces to the last four checks. -/
theorem validationError_of_wellFormed {st : State} {req : CreateReq}
    (hu : req.user_id ≠ "") (hwfi : itemsWellFormed req) :
    validationError st req =
      if ¬ (req.items.map ReqItem.book_id).Nodup then some .duplicateBooks
      else if req.user_id ∉ st.users then some .userNotFound
      else if (fetchedBooks st req).length ≠ (req.items.map ReqItem.book_id).length then
        some .booksNotFound
      else checkStock (fetchedBooks st req) req.items := by
  have hci : checkItems req.items = none := (checkItems_eq_none_iff _).mpr hwfi.2
  have hne : ¬ req.items.isEmpty := by
    simpa [List.isEmpty_iff] using hwfi.1
  rw [validationError, if_neg hu, if_neg hne, hci]

/-- Taxonomy kind of a handler outcome (`none` on success). -/
def errKindOf (r : State × Except TxErr OrderResp) : Option ErrKind :=
  match r.2 with
  | .error e => some e.kind
  | .ok _ => none

/-- Claim C1: for every order-submission request (with the purchaser id
present — a missing `user_id` is itself an `InvalidRequest` per §7, raised
before everything else), `createTransaction` runs its validations in the
order items → duplicates → user → books → stock, the first failing check
terminates the request with that check's error kind, after all five pass
the commit happens, and every error outcome leaves the database exactly as
it was: no order, no order lines, no stock mutation. -/
theorem c1_validation_order (st : State) (req : CreateReq)
    (hu : req.user_id ≠ "") (hwf : (st.books.map Book.id).Nodup) :
    (¬ itemsWellFormed req →
      errKindOf (createTransaction st req) = some .InvalidRequest) ∧
    (itemsWellFormed req → ¬ noDupLines req →
      errKindOf (createTransaction st req) = some .DuplicateLineItem) ∧
    (itemsWellFormed req → noDupLines req → ¬ purchaserKnown st req →
      errKindOf (createTransaction st req) = some .UserNotFound) ∧
    (itemsWellFormed req → noDupLines req → purchaserKnown st req →
      ¬ booksResolvable st req →
      errKindOf (createTransaction st req) = some .BookNotFound) ∧
    (itemsWellFormed req → noDupLines req → purchaserKnown st req →
      booksResolvable st req → ¬ stockSufficient st req →
      errKindOf (createTransaction st req) = some .InsufficientStock) ∧
    (itemsWellFormed req → noDupLines req → purchaserKnown st req →
      booksResolvable st req → stockSufficient st req →
      ∃ r, (createTransaction st req).2 = .ok r) ∧
    (∀ e, (createTransaction st req).2 = .error e → (createTransaction st req).1 = st) := by
  refine ⟨?_, ?_, ?_, ?_, ?_, ?_, ?_⟩
  · intro hbad
    rcases Classical.em (req.items = []) with hnil | hnil
    · have : validationError st req = some .itemsRequired := by
        rw [validationError, if_neg hu, if_pos (by simp [hnil])]
      simp [errKindOf, createTransaction, this, TxErr.kind]
    · have hforall : ¬ ∀ it ∈ req.items,
          it.book_id ≠ "" ∧ 0 < it.quantity ∧ it.quantity.den = 1 := by
        intro hf; exact hbad ⟨hnil, hf⟩
      have hci : checkItems req.items ≠ none := by
        rw [Ne, checkItems_eq_none_iff]; exact hforall
      rcases Option.ne_none_iff_exists'.mp hci with ⟨e, he⟩
      have : validationError st req = some e := by
        rw [validationError, if_neg hu, if_neg (by simpa [List.isEmpty_iff] using hnil), he]
      simp [errKindOf, createTransaction, this, checkItems_kind he]
  · intro hok hdup
    have : validationError st req = some .duplicateBooks := by
      rw [validationError_of_wellFormed hu hok, if_pos (by simpa [noDupLines] using hdup)]
    simp [errKindOf, createTransaction, this, TxErr.kind]
  · intro hok hnd hun
    have : validationError st req = some .userNotFound := by
      rw [validationError_of_wellFormed hu hok, if_neg (by simpa [noDupLines] using hnd),
        if_pos (by simpa [purchaserKnown] using hun)]
    simp [errKindOf, createTransaction, this, TxErr.kind]
  · intro hok hnd hkn hnres
    have hlen : (fetchedBooks st req).length ≠ (req.items.map ReqItem.book_id).length := by
      intro hl; exact hnres ((fetchedBooks_length_iff hwf hnd).mp hl)
    have : validationError st req = some .booksNotFound := by
      rw [validationError_of_wellFormed hu hok, if_neg (by simpa [noDupLines] using hnd),
        if_neg (by simpa [purchaserKnown] using hkn), if_pos hlen]
    simp [errKindOf, createTransaction, this, TxErr.kind]
  · intro hok hnd hkn hres hnstock
    have hlen : (fetchedBooks st req).length = (req.items.map ReqItem.book_id).length :=
      (fetchedBooks_length_iff hwf hnd).mpr hres
    have hcs : checkStock (fetchedBooks st req) req.items ≠ none := by
      rw [Ne, checkStock_eq_none_iff hwf hres req.items (fun x hx => hx)]
      exact hnstock
    rcases Option.ne_none_iff_exists'.mp hcs with ⟨e, he⟩
    have hins := checkStock_some_insufficient hres req.items (fun x hx => hx) he
    have : validationError st req = some e := by
      rw [validationError_of_wellFormed hu hok, if_neg (by simpa [noDupLines] using hnd),
        if_neg (by simpa [purchaserKnown] using hkn), if_neg (by simpa using hlen), he]
    subst hins
    simp [errKindOf, createTransaction, this, TxErr.kind]
  · intro hok hnd hkn hres hstock
    have hlen : (fetchedBooks st req).length = (req.items.map ReqItem.book_id).length :=
      (fetchedBooks_length_iff hwf hnd).mpr hres
    have hcs : checkStock (fetchedBooks st req) req.items = none := by
      rw [checkStock_eq_none_iff hwf hres req.items (fun x hx => hx)]
      exact hstock
    have : validationError st req = none := by
      rw [validationError_of_wellFormed hu hok, if_neg (by simpa [noDupLines] using hnd),
        if_neg (by simpa [purchaserKnown] using hkn), if_neg (by simpa using hlen), hcs]
    simp [createTransaction, this]
  · intro e he
    cases hv : validationError st req with
    | some e' => simp [createTransaction, hv]
    | none => simp [createTransaction, hv] at he

/-- Concrete run of the C1 theorem: a two-book store, a well-formed request
passing all five checks, hence a commit. -/
theorem c1_validation_order_witness :
    (("u1" : String) ≠ "" ∧
      (([⟨"b1", "Dune", 10, 5, "g1", false⟩] : List Book).map Book.id).Nodup) ∧
    ∃ r, (createTransaction
      { users := ["u1"], genres := [], books := [⟨"b1", "Dune", 10, 5, "g1", false⟩],
        orders := [] }
      { user_id := "u1", items := [⟨"b1", 3⟩] }).2 = .ok r := by
  refine ⟨⟨by decide, by decide⟩, ?_⟩
  exact (c1_validation_order
    { users := ["u1"], genres := [], books := [⟨"b1", "Dune", 10, 5, "g1", false⟩],
      orders := [] }
    { user_id := "u1", items := [⟨"b1", 3⟩] }
    (by decide) (by decide)).2.2.2.2.2.1
    (by decide) (by decide) (by decide) (by decide) (by decide)

/-! ## Stock conservation (sequential execution) -/

@[simp] theorem lineOf_book_id (books : List Book) (it : ReqItem) :
    (lineOf books it).book_id = it.book_id := by
  unfold lineOf; split <;> rfl

@[simp] theorem lineOf_quantity (books : List Book) (it : ReqItem) :
    (lineOf books it).quantity = it.quantity := by
  unfold lineOf; split <;> rfl

theorem reqQty_nil (bid : String) : reqQty [] bid = 0 := rfl

theorem reqQty_cons (it : ReqItem) (rest : List ReqItem) (bid : String) :
    reqQty (it :: rest) bid =
      (if it.book_id = bid then it.quantity else 0) + reqQty rest bid := by
  by_cases h : it.book_id = bid <;> simp [reqQty, List.filter_cons, h]

/-- Running the per-item decrement updates over any book list amounts to
subtracting, from each book, the total quantity the request asks of it. -/
theorem decStocks_eq_map (items : List ReqItem) (books : List Book) :
    decStocks books items =
      books.map fun b =>
        { b with stock_quantity := b.stock_quantity - reqQty items b.id } := by
  induction items generalizing books with
  | nil =>
    simp only [decStocks, reqQty_nil, sub_zero]
    have : (fun b : Book => { b with stock_quantity := b.stock_quantity }) = fun b => b := by
      funext b; cases b; rfl
    rw [this, List.map_id']
  | cons it rest ih =>
    rw [decStocks, ih, List.map_map]
    refine List.map_congr_left fun b _ => ?_
    by_cases h : b.id = it.book_id
    · simp [Function.comp, h, reqQty_cons, sub_sub, add_comm]
    · have h2 : ¬ it.book_id = b.id := fun hh => h hh.symm
      simp [Function.comp, h, reqQty_cons, h2]

/-- With pairwise-distinct request ids, the items referencing a given id
form at most a singleton, so the requested total for the id of a member
item is exactly that item's quantity. -/
theorem filter_book_id_singleton :
    ∀ (items : List ReqItem), (items.map ReqItem.book_id).Nodup →
      ∀ x ∈ items, items.filter (fun it => it.book_id = x.book_id) = [x] := by
  intro items
  induction items with
  | nil => intro _ x hx; cases hx
  | cons a rest ih =>
    intro hnd x hx
    have hna : a.book_id ∉ rest.map ReqItem.book_id := (List.nodup_cons.mp hnd).1
    have hrest : (rest.map ReqItem.book_id).Nodup := (List.nodup_cons.mp hnd).2
    rcases List.mem_cons.mp hx with hx | hx
    · subst hx
      have hany : rest.filter (fun it => it.book_id = x.book_id) = [] := by
        rw [List.filter_eq_nil_iff]
        intro y hy hyx
        exact hna (by
          have : y.book_id = x.book_id := by simpa using hyx
          rw [← this]; exact List.mem_map_of_mem _ hy)
      simp [List.filter_cons, hany]
    · have hne : ¬ a.book_id = x.book_id := by
        intro he
        exact hna (he ▸ List.mem_map_of_mem _ hx)
      simp [List.filter_cons, hne, ih hrest x hx]

theorem reqQty_of_not_mem {items : List ReqItem} {bid : String}
    (h : bid ∉ items.map ReqItem.book_id) : reqQty items bid = 0 := by
  have : items.filter (fun it => it.book_id = bid) = [] := by
    rw [List.filter_eq_nil_iff]
    intro y hy hyx
    exact h (by
      have : y.book_id = bid := by simpa using hyx
      rw [← this]; exact List.mem_map_of_mem _ hy)
  simp [reqQty, this]

/-- If the whole pipeline passes, each of the five §4.1 conditions holds. -/
theorem validationError_none_parts {st : State} {req : CreateReq}
    (hwf : (st.books.map Book.id).Nodup)
    (h : validationError st req = none) :
    itemsWellFormed req ∧ noDupLines req ∧ purchaserKnown st req ∧
      booksResolvable st req ∧ stockSufficient st req := by
  have h1 : req.user_id ≠ "" := by
    intro h1; rw [validationError, if_pos h1] at h; cases h
  have h2 : ¬ req.items.isEmpty := by
    intro h2; rw [validationError, if_neg h1, if_pos h2] at h; cases h
  have hci : checkItems req.items = none := by
    cases hc : checkItems req.items with
    | none => rfl
    | some e => rw [validationError, if_neg h1, if_neg h2, hc] at h; cases h
  have hok : itemsWellFormed req :=
    ⟨by simpa [List.isEmpty_iff] using h2, (checkItems_eq_none_iff _).mp hci⟩
  rw [validationError_of_wellFormed h1 hok] at h
  by_cases h3 : ¬ (req.items.map ReqItem.book_id).Nodup
  · rw [if_pos h3] at h; cases h
  rw [if_neg h3] at h
  rw [not_not] at h3
  by_cases h4 : req.user_id ∉ st.users
  · rw [if_pos h4] at h; cases h
  rw [if_neg h4] at h
  rw [not_not] at h4
  by_cases h5 : (fetchedBooks st req).length ≠ (req.items.map ReqItem.book_id).length
  · rw [if_pos h5] at h; cases h
  rw [if_neg h5] at h
  rw [not_ne_iff] at h5
  have hres := (fetchedBooks_length_iff hwf h3).mp h5
  exact ⟨hok, h3, h4, hres,
    (checkStock_eq_none_iff hwf hres req.items (fun x hx => hx)).mp h⟩

/-- A request that passed validation asks of every book at most its stock
(`0` for books it does not reference). -/
theorem reqQty_le_stock {st : State} {req : CreateReq}
    (hwf : (st.books.map Book.id).Nodup)
    (hpos : ∀ b ∈ st.books, 0 ≤ b.stock_quantity)
    (h : validationError st req = none) :
    ∀ b ∈ st.books, reqQty req.items b.id ≤ b.stock_quantity := by
  obtain ⟨-, hnd, -, hres, hstock⟩ := validationError_none_parts hwf h
  intro b hb
  by_cases hmem : b.id ∈ req.items.map ReqItem.book_id
  · rcases List.mem_map.mp hmem with ⟨it, hit, hid⟩
    have hfil := filter_book_id_singleton req.items hnd it hit
    rw [hid] at hfil
    rw [reqQty, hfil]
    simp only [List.map_cons, List.map_nil, List.sum_cons, List.sum_nil, add_zero]
    exact hstock it hit b hb hid.symm (by
      rcases hres it hit with ⟨b', hb', hid', hdel'⟩
      have : b' = b := book_eq_of_id_eq hwf hb' hb (hid'.trans hid)
      rw [← this]; exact hdel')
  · rw [reqQty_of_not_mem hmem]
    exact hpos b hb

theorem step_of_error {st : State} {req : CreateReq} {e : TxErr}
    (hv : validationError st req = some e) : step st req = st := by
  simp [step, createTransaction, hv]

theorem step_of_commit {st : State} {req : CreateReq}
    (hv : validationError st req = none) :
    step st req =
      { st with orders := st.orders ++ [(commitTx st req).2],
                books := decStocks st.books req.items } := by
  simp [step, createTransaction, hv, commitTx]

theorem soldQty_nil (bid : String) : soldQty [] bid = 0 := rfl

theorem soldQty_cons (o : Order) (os : List Order) (bid : String) :
    soldQty (o :: os) bid =
      ((o.order_items.filter fun l => l.book_id = bid).map OrderItem.quantity).sum +
        soldQty os bid := by
  simp [soldQty]

/-- The lines of a committed order take from each book exactly what the
request's items asked of it. -/
theorem commit_lines_qty (st : State) (req : CreateReq) (bid : String) :
    (((commitTx st req).2.order_items.filter fun l => l.book_id = bid).map
        OrderItem.quantity).sum = reqQty req.items bid := by
  show (((req.items.map (lineOf (fetchedBooks st req))).filter
      fun l => l.book_id = bid).map OrderItem.quantity).sum = reqQty req.items bid
  rw [List.filter_map, List.map_map]
  rw [reqQty]
  congr 1
  · rw [show ((fun l : OrderItem => decide (l.book_id = bid)) ∘ lineOf (fetchedBooks st req)) =
        fun it : ReqItem => decide (it.book_id = bid) from ?_]
    · apply List.map_congr_left
      intro a _
      simp [Function.comp]
    · funext it
      simp [Function.comp]

theorem runAll_orders_prefix (rs : List CreateReq) (st : State) :
    ∃ tail, (runAll st rs).orders = st.orders ++ tail := by
  induction rs generalizing st with
  | nil => exact ⟨[], (List.append_nil _).symm⟩
  | cons r rs ih =>
    rw [runAll]
    cases hv : validationError st r with
    | some e =>
      rw [step_of_error hv]
      exact ih st
    | none =>
      rcases ih (step st r) with ⟨tail, htail⟩
      refine ⟨[(commitTx st r).2] ++ tail, ?_⟩
      rw [htail, step_of_commit hv]
      simp

/-- Claim C2: over any sequence of submissions handled in order, every
book's final stock is its initial stock minus the total quantity of the
orders that actually committed (the suffix appended to the order table),
and no book's stock is ever negative. -/
theorem c2_stock_conservation (reqs : List CreateReq) (st : State)
    (hwf : (st.books.map Book.id).Nodup)
    (hpos : ∀ b ∈ st.books, 0 ≤ b.stock_quantity) :
    (runAll st reqs).books =
      st.books.map (fun b =>
        { b with stock_quantity :=
            b.stock_quantity -
              soldQty ((runAll st reqs).orders.drop st.orders.length) b.id }) ∧
    ∀ b ∈ (runAll st reqs).books, 0 ≤ b.stock_quantity := by
  induction reqs generalizing st with
  | nil =>
    refine ⟨?_, fun b hb => hpos b hb⟩
    rw [runAll, List.drop_length]
    have : (fun b : Book =>
        { b with stock_quantity := b.stock_quantity - soldQty [] b.id }) = fun b => b := by
      funext b; cases b; simp [soldQty_nil]
    rw [this, List.map_id']
  | cons r rs ih =>
    rw [runAll]
    cases hv : validationError st r with
    | some e =>
      rw [step_of_error hv]
      exact ih st hwf hpos
    | none =>
      have hle := reqQty_le_stock hwf hpos hv
      rw [step_of_commit hv]
      set st1 : State :=
        { st with orders := st.orders ++ [(commitTx st r).2],
                  books := decStocks st.books r.items } with hst1
      have hbooks1 : st1.books =
          st.books.map fun b =>
            { b with stock_quantity := b.stock_quantity - reqQty r.items b.id } := by
        rw [hst1]; exact decStocks_eq_map r.items st.books
      have hwf1 : (st1.books.map Book.id).Nodup := by
        rw [hbooks1, List.map_map]
        have : (Book.id ∘ fun b : Book =>
            { b with stock_quantity := b.stock_quantity - reqQty r.items b.id }) = Book.id := by
          funext b; rfl
        rw [this]; exact hwf
      have hpos1 : ∀ b ∈ st1.books, 0 ≤ b.stock_quantity := by
        rw [hbooks1]
        intro b hb
        rcases List.mem_map.mp hb with ⟨b0, hb0, rfl⟩
        simpa [sub_nonneg] using hle b0 hb0
      rcases ih st1 hwf1 hpos1 with ⟨hmap, hnn⟩
      refine ⟨?_, hnn⟩
      rcases runAll_orders_prefix rs st1 with ⟨tail, htail⟩
      have hdrop : (runAll st1 rs).orders.drop st.orders.length =
          (commitTx st r).2 :: tail := by
        rw [htail, hst1]
        show ((st.orders ++ [(commitTx st r).2]) ++ tail).drop st.orders.length = _
        rw [List.append_assoc, List.drop_left]
        rfl
      have hdrop1 : (runAll st1 rs).orders.drop st1.orders.length = tail := by
        rw [htail, List.drop_left]
      rw [hmap, hdrop1, hbooks1, List.map_map, hdrop]
      apply List.map_congr_left
      intro b _
      have hsold := soldQty_cons (commitTx st r).2 tail b.id
      simp only [Function.comp]
      show ({ b with stock_quantity :=
          (b.stock_quantity - reqQty r.items b.id) - soldQty tail b.id } : Book) =
        { b with stock_quantity :=
          b.stock_quantity - soldQty ((commitTx st r).2 :: tail) b.id }
      rw [hsold, commit_lines_qty, sub_sub]

/-- Concrete run of the C2 theorem: stock 5, two submissions of quantity 3;
the first commits, the second is rejected, and the conservation equation
holds for the final state. -/
theorem c2_stock_conservation_witness :
    (runAll
        { users := ["u1"], genres := [],
          books := [⟨"b1", "Dune", 10, 5, "g1", false⟩], orders := [] }
        [{ user_id := "u1", items := [⟨"b1", 3⟩] },
         { user_id := "u1", items := [⟨"b1", 3⟩] }]).books =
      ([⟨"b1", "Dune", 10, 5, "g1", false⟩] : List Book).map (fun b =>
        { b with stock_quantity :=
            b.stock_quantity -
              soldQty ((runAll
                { users := ["u1"], genres := [],
                  books := [⟨"b1", "Dune", 10, 5, "g1", false⟩], orders := [] }
                [{ user_id := "u1", items := [⟨"b1", 3⟩] },
                 { user_id := "u1", items := [⟨"b1", 3⟩] }]).orders.drop 0) b.id }) ∧
    ∀ b ∈ (runAll
        { users := ["u1"], genres := [],
          books := [⟨"b1", "Dune", 10, 5, "g1", false⟩], orders := [] }
        [{ user_id := "u1", items := [⟨"b1", 3⟩] },
         { user_id := "u1", items := [⟨"b1", 3⟩] }]).books,
      0 ≤ b.stock_quantity :=
  c2_stock_conservation
    [{ user_id := "u1", items := [⟨"b1", 3⟩] },
     { user_id := "u1", items := [⟨"b1", 3⟩] }]
    { users := ["u1"], genres := [],
      books := [⟨"b1", "Dune", 10, 5, "g1", false⟩], orders := [] }
    (by decide) (by decide)

/-! ## Concurrency: the validate-then-commit race

In the source, the whole validation pipeline (including the stock check)
runs *before* `prisma.$transaction`, against the stocks read by the batched
lookup, and the decrement inside the transaction is unconditional
(`decrement: quantity`, no floor and no re-check).  Two request handlers
may therefore both run their validation phase against the same committed
state and only then run their commits one after the other; the schedule
validate₁, validate₂, commit₁, commit₂ is modelled below by checking
`validationError` twice on the same state and then applying `commitTx`
twice in sequence. -/

def c3State : State :=
  { users := ["u1"], genres := []
    books := [⟨"b1", "Dune", 10, 1, "g1", false⟩]
    orders := [] }

def c3Req : CreateReq := { user_id := "u1", items := [⟨"b1", 1⟩] }

/-- Claim C3 (violated by the code): with stock `S = 1` and two concurrent
requests of quantity `Q = 1` (so `2Q > S`), both pass the pre-transaction
stock validation against the same state, both commits then succeed, two
orders are recorded, and the stock ends at `-1` — the loser receives
neither `InsufficientStock` nor any error at all, and the stock decrements
past zero. -/
theorem c3_concurrent_oversell :
    validationError c3State c3Req = none ∧
    (commitTx (commitTx c3State c3Req).1 c3Req).1.orders.length = 2 ∧
    stockOf (commitTx (commitTx c3State c3Req).1 c3Req).1 "b1" = -1 := by
  refine ⟨by decide, by decide, ?_⟩
  show stockOf
    { c3State with
        orders := _
        books := decStocks (decStocks c3State.books c3Req.items) c3Req.items } "b1" = -1
  rw [decStocks_eq_map, decStocks_eq_map]
  simp only [stockOf, c3State, c3Req]
  norm_num [List.find?, reqQty, List.filter]

/-! ## Statistics aggregation (`getTransactionStatistics`) -/

/-- All order lines in the store, in table order (the embedding's model of
the unordered `orderItem.groupBy` input). -/
def allLines (st : State) : List OrderItem :=
  (st.orders.map Order.order_items).flatten

/-- Add one quantity to a keyed running sum, keeping first-appearance key
order (the behaviour of grouping rows into a keyed record). -/
def addToGroup (key : String) (q : ℚ) : List (String × ℚ) → List (String × ℚ)
  | [] => [(key, q)]
  | (k, s) :: rest =>
    if k = key then (k, s + q) :: rest else (k, s) :: addToGroup key q rest

def groupFold (acc : List (String × ℚ)) : List OrderItem → List (String × ℚ)
  | [] => acc
  | l :: ls => groupFold (addToGroup l.book_id l.quantity acc) ls

/-- `prisma.orderItem.groupBy({by: ['book_id'], _sum: {quantity}})`: one
entry per distinct `book_id` with the summed quantity. -/
def groupByBook (lines : List OrderItem) : List (String × ℚ) :=
  groupFold [] lines

/-- The `bookGenreMap` entry for a book id: present only for live books
(the book query filters `deleted_at: null`), carrying the joined genre's id
and name when the relation resolves. -/
def bookGenre (st : State) (bid : String) : Option (String × String) :=
  match st.books.find? (fun b => b.id = bid && !b.deleted) with
  | some b => (st.genres.find? (fun g => g.id = b.genre_id)).map fun g => (g.id, g.name)
  | none => none

/-- Add one book's summed quantity to the per-genre record
(`genreSalesMap[genreId].salesCount += salesCount`, name fixed at first
insertion, insertion order preserved). -/
def addGenre (gid gname : String) (q : ℚ) :
    List (String × String × ℚ) → List (String × String × ℚ)
  | [] => [(gid, gname, q)]
  | (k, n, s) :: rest =>
    if k = gid then (k, n, s + q) :: rest else (k, n, s) :: addGenre gid gname q rest

def genreFold (st : State) (acc : List (String × String × ℚ)) :
    List (String × ℚ) → List (String × String × ℚ)
  | [] => acc
  | (bid, q) :: rest =>
    match bookGenre st bid with
    | some (gid, gname) => genreFold st (addGenre gid gname q acc) rest
    | none => genreFold st acc rest

/-- The `genreSalesMap` record: walk the grouped order items, skip books
absent from the live-book map, accumulate per genre. -/
def genreSales (st : State) : List (String × String × ℚ) :=
  genreFold st [] (groupByBook (allLines st))

/-- One element of the `genreStats` array. -/
structure GenreStat where
  genreId : String
  genreName : String
  bookSalesCount : ℚ
deriving DecidableEq, Repr

def genreEntries (st : State) : List GenreStat :=
  (genreSales st).map fun e => ⟨e.1, e.2.1, e.2.2⟩

/-- Insert into a descending-sorted list, after every element with a
strictly larger or equal count — together with `sortStats` this is the
unique stable result of `sort((a, b) => b.bookSalesCount - a.bookSalesCount)`
(JS `Array.prototype.sort` is stable). -/
def insertStat (x : GenreStat) : List GenreStat → List GenreStat
  | [] => [x]
  | y :: ys =>
    if y.bookSalesCount ≤ x.bookSalesCount then x :: y :: ys
    else y :: insertStat x ys

def sortStats : List GenreStat → List GenreStat
  | [] => []
  | x :: xs => insertStat x (sortStats xs)

/-- The ranked genre list of the statistics endpoint. -/
def genreRanked (st : State) : List GenreStat :=
  sortStats (genreEntries st)

/-- `parseFloat(x.toFixed(2))`: round to two decimal places, ties away
from zero, as ECMAScript `toFixed` does on exactly-represented values. -/
def jsToFixed2 (q : ℚ) : ℚ :=
  if q < 0 then -(⌊(-q) * 100 + 1 / 2⌋ : ℚ) / 100 else (⌊q * 100 + 1 / 2⌋ : ℚ) / 100

/-- The statistics response body. -/
structure Summary where
  total_transactions : Nat
  average_transaction_amount : ℚ
  fewest_book_sales_genre : Option String
  most_book_sales_genre : Option String
deriving DecidableEq, Repr

/-- `getTransactionStatistics`: count and total of all orders, average with
the zero-orders guard then `toFixed(2)`, and the ranked genre list's two
ends (`most` needs a non-empty list, `fewest` needs length `> 1`). -/
def summarize (st : State) : Summary :=
  let totalTransactions := st.orders.length
  let totalAmount := (st.orders.map Order.total_price).sum
  let average := if totalTransactions > 0 then totalAmount / totalTransactions else 0
  let gs := genreRanked st
  { total_transactions := totalTransactions
    average_transaction_amount := jsToFixed2 average
    fewest_book_sales_genre :=
      if gs.length > 1 then gs.getLast?.map GenreStat.genreName else none
    most_book_sales_genre := gs.head?.map GenreStat.genreName }

/-- Claim C5: `average_transaction_amount` is the sum of all orders'
`total_price` divided by the order count, passed through `toFixed(2)`,
and it is `0` when there are no orders (in `ℚ`, division by zero is `0`،
so the single formula also covers the guard branch). -/
theorem c5_average_order_value (st : State) :
    (st.orders = [] → (summarize st).average_transaction_amount = 0) ∧
    (summarize st).average_transaction_amount =
      jsToFixed2 ((st.orders.map Order.total_price).sum / (st.orders.length : ℚ)) := by
  constructor
  · intro h
    simp only [summarize, h]
    norm_num [jsToFixed2]
  · by_cases h : st.orders.length > 0
    · simp [summarize, h]
    · have hnil : st.orders = [] := List.length_eq_zero.mp (by omega)
      simp [summarize, hnil]

/-! ## Genre attribution -/

/-- Value stored under a book key in the grouped sums (`0` if absent). -/
def groupVal (acc : List (String × ℚ)) (k : String) : ℚ :=
  ((acc.find? fun p => p.1 = k).map Prod.snd).getD 0

/-- Value stored under a genre key in `genreSalesMap` (`0` if absent). -/
def genreVal (acc : List (String × String × ℚ)) (g : String) : ℚ :=
  ((acc.find? fun p => p.1 = g).map (fun p => p.2.2)).getD 0

theorem groupVal_addToGroup (k : String) (q : ℚ) (acc : List (String × ℚ)) (k' : String) :
    groupVal (addToGroup k q acc) k' =
      if k' = k then groupVal acc k' + q else groupVal acc k' := by
  induction acc with
  | nil =>
    by_cases h : k = k'
    · subst h; simp [addToGroup, groupVal]
    · have h' : ¬ k' = k := fun hh => h hh.symm
      simp [addToGroup, groupVal, h, h']
  | cons p rest ih =>
    obtain ⟨k0, s⟩ := p
    by_cases hk : k0 = k
    · subst hk
      by_cases h : k0 = k'
      · subst h; simp [addToGroup, groupVal]
      · have h' : ¬ k' = k0 := fun hh => h hh.symm
        simp [addToGroup, groupVal, h, h']
    · by_cases h : k0 = k'
      · subst h
        have h' : ¬ k0 = k := hk
        simp [addToGroup, groupVal, fun hh : k0 = k => hk hh, h']
      · simp only [addToGroup, if_neg hk]
        simp only [groupVal] at ih ⊢
        rw [List.find?_cons_of_neg _ (by simpa using h),
          List.find?_cons_of_neg _ (by simpa using h)]
        exact ih

theorem groupVal_groupFold (lines : List OrderItem) :
    ∀ (acc : List (String × ℚ)) (k : String),
      groupVal (groupFold acc lines) k =
        groupVal acc k + ((lines.filter fun l => l.book_id = k).map OrderItem.quantity).sum := by
  induction lines with
  | nil => simp [groupFold]
  | cons l ls ih =>
    intro acc k
    rw [groupFold, ih, groupVal_addToGroup]
    by_cases h : k = l.book_id
    · rw [if_pos h]
      rw [List.filter_cons_of_pos (by simpa using h.symm)]
      simp only [List.map_cons, List.sum_cons]
      ring
    · rw [if_neg h]
      rw [List.filter_cons_of_neg (by simpa using fun hh : l.book_id = k => h hh.symm)]

theorem genreVal_addGenre (gid gname : String) (q : ℚ)
    (acc : List (String × String × ℚ)) (g : String) :
    genreVal (addGenre gid gname q acc) g =
      if g = gid then genreVal acc g + q else genreVal acc g := by
  induction acc with
  | nil =>
    by_cases h : gid = g
    · subst h; simp [addGenre, genreVal]
    · have h' : ¬ g = gid := fun hh => h hh.symm
      simp [addGenre, genreVal, h, h']
  | cons p rest ih =>
    obtain ⟨k0, n0, s⟩ := p
    by_cases hk : k0 = gid
    · subst hk
      by_cases h : k0 = g
      · subst h; simp [addGenre, genreVal]
      · have h' : ¬ g = k0 := fun hh => h hh.symm
        simp [addGenre, genreVal, h, h']
    · by_cases h : k0 = g
      · subst h
        have h' : ¬ k0 = gid := hk
        simp [addGenre, genreVal, fun hh : k0 = gid => hk hh, h']
      · simp only [addGenre, if_neg hk]
        simp only [genreVal] at ih ⊢
        rw [List.find?_cons_of_neg _ (by simpa using h),
          List.find?_cons_of_neg _ (by simpa using h)]
        exact ih

theorem genreVal_genreFold (st : State) (grouped : List (String × ℚ)) :
    ∀ (acc : List (String × String × ℚ)) (g : String),
      genreVal (genreFold st acc grouped) g =
        genreVal acc g +
          ((grouped.filter fun p => (bookGenre st p.1).map Prod.fst = some g).map
              Prod.snd).sum := by
  induction grouped with
  | nil => simp [genreFold]
  | cons p rest ih =>
    intro acc g
    obtain ⟨bid, q⟩ := p
    cases hbg : bookGenre st bid with
    | none =>
      simp only [genreFold, hbg]
      rw [ih]
      rw [List.filter_cons_of_neg (by simp [hbg])]
    | some pr =>
      obtain ⟨gid, gname⟩ := pr
      simp only [genreFold, hbg]
      rw [ih, genreVal_addGenre]
      by_cases hg : g = gid
      · rw [if_pos hg]
        rw [List.filter_cons_of_pos (by simp [hbg, hg])]
        simp only [List.map_cons, List.sum_cons]
        ring
      · rw [if_neg hg]
        rw [List.filter_cons_of_neg (by simp [hbg]; exact fun hh => hg hh.symm)]

theorem addToGroup_filter_sum (P : String → Bool) (k : String) (q : ℚ)
    (acc : List (String × ℚ)) :
    (((addToGroup k q acc).filter fun p => P p.1).map Prod.snd).sum =
      ((acc.filter fun p => P p.1).map Prod.snd).sum + (if P k then q else 0) := by
  induction acc with
  | nil =>
    by_cases h : P k <;> simp [addToGroup, List.filter_cons, h]
  | cons p rest ih =>
    obtain ⟨k0, s⟩ := p
    by_cases hk : k0 = k
    · subst hk
      by_cases h : P k0 <;> simp [addToGroup, List.filter_cons, h] <;> ring
    · simp only [addToGroup, if_neg hk]
      by_cases h : P k0 <;> simp [List.filter_cons, h, ih] <;> ring

theorem groupFold_filter_sum (P : String → Bool) (lines : List OrderItem) :
    ∀ (acc : List (String × ℚ)),
      (((groupFold acc lines).filter fun p => P p.1).map Prod.snd).sum =
        ((acc.filter fun p => P p.1).map Prod.snd).sum +
          ((lines.filter fun l => P l.book_id).map OrderItem.quantity).sum := by
  induction lines with
  | nil => simp [groupFold]
  | cons l ls ih =>
    intro acc
    rw [groupFold, ih, addToGroup_filter_sum]
    by_cases h : P l.book_id <;> simp [List.filter_cons, h] <;> ring

/-- The spec's §4.2 step-3 attribution formula: the quantity of every order
line whose referenced book currently exists, is not soft-deleted, and
currently carries genre `g` (which must itself resolve in the genre table),
summed over the whole order history. -/
def specAttr (st : State) (g : String) : ℚ :=
  (((allLines st).filter fun l =>
      (∃ b ∈ st.books, b.deleted = false ∧ b.id = l.book_id ∧ b.genre_id = g) ∧
        ∃ gen ∈ st.genres, gen.id = g).map OrderItem.quantity).sum

/-- With unique book ids, the `bookGenreMap` lookup agrees with the
declarative description used by `specAttr`. -/
theorem bookGenre_fst_iff {st : State} (hwf : (st.books.map Book.id).Nodup)
    (bid g : String) :
    (bookGenre st bid).map Prod.fst = some g ↔
      ((∃ b ∈ st.books, b.deleted = false ∧ b.id = bid ∧ b.genre_id = g) ∧
        ∃ gen ∈ st.genres, gen.id = g) := by
  constructor
  · intro h
    cases hfb : st.books.find? (fun b => b.id = bid && !b.deleted) with
    | none => simp [bookGenre, hfb] at h
    | some b =>
      have hbmem : b ∈ st.books := List.mem_of_find?_eq_some hfb
      have hbp := List.find?_some hfb
      have hbid : b.id = bid := by
        have := (Bool.and_eq_true _ _).mp hbp
        simpa using this.1
      have hbdel : b.deleted = false := by
        have := (Bool.and_eq_true _ _).mp hbp
        simpa using this.2
      cases hfg : st.genres.find? (fun gen => gen.id = b.genre_id) with
      | none => simp [bookGenre, hfb, hfg] at h
      | some gen =>
        have hgmem : gen ∈ st.genres := List.mem_of_find?_eq_some hfg
        have hgid : gen.id = b.genre_id := by simpa using List.find?_some hfg
        have hfst : gen.id = g := by
          simp [bookGenre, hfb, hfg] at h
          exact h
        exact ⟨⟨b, hbmem, hbdel, hbid, by rw [← hgid, hfst]⟩, gen, hgmem, hfst⟩
  · rintro ⟨⟨b, hbmem, hbdel, hbid, hbgid⟩, gen, hgmem, hgid⟩
    have hsome : (st.books.find? (fun b => b.id = bid && !b.deleted)).isSome := by
      rw [List.find?_isSome]
      exact ⟨b, hbmem, by simp [hbid, hbdel]⟩
    rcases Option.isSome_iff_exists.mp hsome with ⟨b', hb'⟩
    have hb'mem : b' ∈ st.books := List.mem_of_find?_eq_some hb'
    have hb'p := List.find?_some hb'
    have hb'id : b'.id = bid := by
      have := (Bool.and_eq_true _ _).mp hb'p
      simpa using this.1
    have hbb : b' = b := book_eq_of_id_eq hwf hb'mem hbmem (hb'id.trans hbid.symm)
    have hgsome : (st.genres.find? (fun gg => gg.id = b'.genre_id)).isSome := by
      rw [List.find?_isSome]
      exact ⟨gen, hgmem, by simp [hgid, hbb, hbgid]⟩
    rcases Option.isSome_iff_exists.mp hgsome with ⟨gen', hg'⟩
    have hg'id : gen'.id = b'.genre_id := by simpa using List.find?_some hg'
    have hbg2 : b'.genre_id = g := by rw [hbb]; exact hbgid
    simp only [bookGenre, hb', hg', Option.map_some']
    simp [hg'id, hbg2]

/-- The per-genre total computed by the statistics endpoint equals the
spec's attribution formula. -/
theorem genreVal_eq_specAttr {st : State} (hwf : (st.books.map Book.id).Nodup)
    (g : String) :
    genreVal (genreSales st) g = specAttr st g := by
  rw [genreSales, genreVal_genreFold]
  have h0 : genreVal [] g = 0 := rfl
  rw [h0, zero_add, groupByBook,
    groupFold_filter_sum (fun bid => decide ((bookGenre st bid).map Prod.fst = some g))]
  have h1 : ((([] : List (String × ℚ)).filter fun p =>
      decide ((bookGenre st p.1).map Prod.fst = some g)).map Prod.snd).sum = 0 := rfl
  rw [h1, zero_add, specAttr]
  congr 1
  congr 1
  apply List.filter_congr
  intro l _
  rw [decide_eq_decide]
  exact bookGenre_fst_iff hwf l.book_id g

/-- Claim C6: each line's quantity is attributed to the current genre of
its book, read at statistics time (so a genre change after purchase credits
the new genre, and a line whose book was soft-deleted is excluded), while
`total_transactions` and `average_transaction_amount` ignore the book table
entirely (soft-deleted books still count there). -/
theorem c6_read_time_attribution (st : State)
    (hwf : (st.books.map Book.id).Nodup) :
    (∀ g : String, genreVal (genreSales st) g = specAttr st g) ∧
    (∀ bs : List Book,
      (summarize { st with books := bs }).total_transactions =
          (summarize st).total_transactions ∧
        (summarize { st with books := bs }).average_transaction_amount =
          (summarize st).average_transaction_amount) :=
  ⟨fun g => genreVal_eq_specAttr hwf g, fun _ => ⟨rfl, rfl⟩⟩

def c6State : State :=
  { users := []
    genres := [⟨"g1", "Horror", false⟩, ⟨"g2", "SciFi", false⟩]
    books := [⟨"b1", "Dune", 10, 5, "g2", false⟩, ⟨"b2", "Nova", 8, 2, "g1", true⟩]
    orders := [⟨0, "u1", 36, [⟨"b1", 2, 10⟩, ⟨"b2", 2, 8⟩]⟩] }

/-- Concrete run of the C6 theorem on a history with one live and one
soft-deleted purchased book. -/
theorem c6_read_time_attribution_witness :
    ((c6State.books.map Book.id).Nodup) ∧
    ((∀ g : String, genreVal (genreSales c6State) g = specAttr c6State g) ∧
      (∀ bs : List Book,
        (summarize { c6State with books := bs }).total_transactions =
            (summarize c6State).total_transactions ∧
          (summarize { c6State with books := bs }).average_transaction_amount =
            (summarize c6State).average_transaction_amount)) :=
  ⟨by decide, c6_read_time_attribution c6State (by decide)⟩

/-! ## Positivity and key uniqueness of the accumulated genre record -/

theorem addToGroup_val_pos {k : String} {q : ℚ} {acc : List (String × ℚ)}
    (hq : 0 < q) (hacc : ∀ p ∈ acc, 0 < p.2) :
    ∀ p ∈ addToGroup k q acc, 0 < p.2 := by
  induction acc with
  | nil => simpa [addToGroup] using hq
  | cons p0 rest ih =>
    obtain ⟨k0, s⟩ := p0
    by_cases hk : k0 = k
    · subst hk
      intro p hp
      rcases List.mem_cons.mp (by simpa [addToGroup] using hp) with hp | hp
      · subst hp
        have := hacc (k0, s) (List.mem_cons_self _ _)
        simp only at this ⊢
        positivity
      · exact hacc p (List.mem_cons_of_mem _ hp)
    · intro p hp
      rcases List.mem_cons.mp (by simpa [addToGroup, hk] using hp) with hp | hp
      · subst hp; exact hacc (k0, s) (List.mem_cons_self _ _)
      · exact ih (fun p' hp' => hacc p' (List.mem_cons_of_mem _ hp')) p hp

theorem groupFold_val_pos (lines : List OrderItem) :
    ∀ (acc : List (String × ℚ)), (∀ p ∈ acc, 0 < p.2) →
      (∀ l ∈ lines, 0 < l.quantity) →
      ∀ p ∈ groupFold acc lines, 0 < p.2 := by
  induction lines with
  | nil => intro acc hacc _; simpa [groupFold] using hacc
  | cons l ls ih =>
    intro acc hacc hq
    exact ih _
      (addToGroup_val_pos (hq l (List.mem_cons_self _ _)) hacc)
      (fun l' hl' => hq l' (List.mem_cons_of_mem _ hl'))

theorem addGenre_val_pos {gid gname : String} {q : ℚ}
    {acc : List (String × String × ℚ)}
    (hq : 0 < q) (hacc : ∀ p ∈ acc, 0 < p.2.2) :
    ∀ p ∈ addGenre gid gname q acc, 0 < p.2.2 := by
  induction acc with
  | nil => simpa [addGenre] using hq
  | cons p0 rest ih =>
    obtain ⟨k0, n0, s⟩ := p0
    by_cases hk : k0 = gid
    · subst hk
      intro p hp
      rcases List.mem_cons.mp (by simpa [addGenre] using hp) with hp | hp
      · subst hp
        have := hacc (k0, n0, s) (List.mem_cons_self _ _)
        simp only at this ⊢
        positivity
      · exact hacc p (List.mem_cons_of_mem _ hp)
    · intro p hp
      rcases List.mem_cons.mp (by simpa [addGenre, hk] using hp) with hp | hp
      · subst hp; exact hacc (k0, n0, s) (List.mem_cons_self _ _)
      · exact ih (fun p' hp' => hacc p' (List.mem_cons_of_mem _ hp')) p hp

theorem genreFold_val_pos (st : State) (grouped : List (String × ℚ)) :
    ∀ (acc : List (String × String × ℚ)), (∀ p ∈ acc, 0 < p.2.2) →
      (∀ p ∈ grouped, 0 < p.2) →
      ∀ e ∈ genreFold st acc grouped, 0 < e.2.2 := by
  induction grouped with
  | nil => intro acc hacc _; simpa [genreFold] using hacc
  | cons p rest ih =>
    intro acc hacc hpos
    obtain ⟨bid, q⟩ := p
    cases hbg : bookGenre st bid with
    | none =>
      simp only [genreFold, hbg]
      exact ih acc hacc (fun p' hp' => hpos p' (List.mem_cons_of_mem _ hp'))
    | some pr =>
      obtain ⟨gid, gname⟩ := pr
      simp only [genreFold, hbg]
      exact ih _
        (addGenre_val_pos (hpos (bid, q) (List.mem_cons_self _ _)) hacc)
        (fun p' hp' => hpos p' (List.mem_cons_of_mem _ hp'))

theorem genreSales_val_pos {st : State}
    (hq : ∀ o ∈ st.orders, ∀ l ∈ o.order_items, 0 < l.quantity) :
    ∀ e ∈ genreSales st, 0 < e.2.2 := by
  have hlines : ∀ l ∈ allLines st, 0 < l.quantity := by
    intro l hl
    have hl' : ∃ o, o ∈ st.orders ∧ l ∈ o.order_items := by simpa [allLines] using hl
    rcases hl' with ⟨o, ho, hlmem⟩
    exact hq o ho l hlmem
  exact genreFold_val_pos st _ [] (by simp)
    (groupFold_val_pos (allLines st) [] (by simp) hlines)

theorem addGenre_keys (gid gname : String) (q : ℚ)
    (acc : List (String × String × ℚ)) :
    (addGenre gid gname q acc).map (fun p => p.1) =
      if gid ∈ acc.map (fun p => p.1) then acc.map (fun p => p.1)
      else acc.map (fun p => p.1) ++ [gid] := by
  induction acc with
  | nil => simp [addGenre]
  | cons p0 rest ih =>
    obtain ⟨k0, n0, s⟩ := p0
    by_cases hk : k0 = gid
    · subst hk
      simp [addGenre]
    · simp only [addGenre, if_neg hk, List.map_cons, ih, List.mem_cons]
      have hne : ¬ gid = k0 := fun hh => hk hh.symm
      by_cases hmem : gid ∈ rest.map (fun p => p.1)
      · simp [hmem, hne]
      · simp [hmem, hne]

theorem addGenre_keys_nodup {gid gname : String} {q : ℚ}
    {acc : List (String × String × ℚ)}
    (h : (acc.map (fun p => p.1)).Nodup) :
    ((addGenre gid gname q acc).map (fun p => p.1)).Nodup := by
  rw [addGenre_keys]
  by_cases hmem : gid ∈ acc.map (fun p => p.1)
  · simpa [hmem] using h
  · rw [if_neg hmem]
    refine List.Nodup.append h (List.nodup_singleton gid) ?_
    intro a ha hb
    rw [List.mem_singleton] at hb
    subst hb
    exact hmem ha

theorem genreFold_keys_nodup (st : State) (grouped : List (String × ℚ)) :
    ∀ (acc : List (String × String × ℚ)), ((acc.map (fun p => p.1)).Nodup) →
      ((genreFold st acc grouped).map (fun p => p.1)).Nodup := by
  induction grouped with
  | nil => intro acc hacc; simpa [genreFold] using hacc
  | cons p rest ih =>
    intro acc hacc
    obtain ⟨bid, q⟩ := p
    cases hbg : bookGenre st bid with
    | none => simp only [genreFold, hbg]; exact ih acc hacc
    | some pr =>
      obtain ⟨gid, gname⟩ := pr
      simp only [genreFold, hbg]
      exact ih _ (addGenre_keys_nodup hacc)

theorem genreSales_keys_nodup (st : State) :
    ((genreSales st).map (fun p => p.1)).Nodup :=
  genreFold_keys_nodup st _ [] (by simp)

theorem insertStat_length (x : GenreStat) (l : List GenreStat) :
    (insertStat x l).length = l.length + 1 := by
  induction l with
  | nil => rfl
  | cons y ys ih =>
    rw [insertStat]
    split
    · rfl
    · simp [ih]

theorem sortStats_length (l : List GenreStat) :
    (sortStats l).length = l.length := by
  induction l with
  | nil => rfl
  | cons x xs ih => rw [sortStats, insertStat_length, ih, List.length_cons]

/-- In the accumulated genre record, whose keys are unique, every entry is
the one its key looks up. -/
theorem assoc3_find?_of_mem :
    ∀ (acc : List (String × String × ℚ)), ((acc.map (fun p => p.1)).Nodup) →
      ∀ e ∈ acc, acc.find? (fun p => p.1 = e.1) = some e := by
  intro acc
  induction acc with
  | nil => intro _ e he; cases he
  | cons a rest ih =>
    intro hnd e he
    have hna : a.1 ∉ rest.map (fun p => p.1) := (List.nodup_cons.mp hnd).1
    rcases List.mem_cons.mp he with he | he
    · subst he
      exact List.find?_cons_of_pos _ (by simp)
    · have hne : ¬ a.1 = e.1 := by
        intro hh
        exact hna (hh ▸ List.mem_map_of_mem (fun p => p.1) he)
      rw [List.find?_cons_of_neg _ (by simpa using hne)]
      exact ih (List.nodup_cons.mp hnd).2 e he

theorem genreVal_ne_zero_find {acc : List (String × String × ℚ)} {g : String}
    (h : genreVal acc g ≠ 0) :
    ∃ e, acc.find? (fun p => p.1 = g) = some e ∧ e ∈ acc ∧ e.1 = g := by
  cases hf : acc.find? (fun p => p.1 = g) with
  | none => exact absurd (by simp [genreVal, hf]) h
  | some e =>
    exact ⟨e, rfl, List.mem_of_find?_eq_some hf, by simpa using List.find?_some hf⟩

/-- Claim C7: `most_book_sales_genre` is `null` exactly when no genre has
any attributed sales, `fewest_book_sales_genre` is `null` exactly when
fewer than two distinct genres have attributed sales, and otherwise the
two fields are the two ends of the ranked genre list. -/
theorem c7_best_worst_null (st : State)
    (hwf : (st.books.map Book.id).Nodup)
    (hq : ∀ o ∈ st.orders, ∀ l ∈ o.order_items, 0 < l.quantity) :
    ((summarize st).most_book_sales_genre = none ↔
      ∀ g : String, specAttr st g = 0) ∧
    ((summarize st).fewest_book_sales_genre = none ↔
      ¬ ∃ g1 g2 : String, g1 ≠ g2 ∧ specAttr st g1 ≠ 0 ∧ specAttr st g2 ≠ 0) ∧
    (summarize st).most_book_sales_genre =
      (genreRanked st).head?.map GenreStat.genreName ∧
    (summarize st).fewest_book_sales_genre =
      (if 1 < (genreRanked st).length then
        (genreRanked st).getLast?.map GenreStat.genreName
       else none) := by
  have hpos := genreSales_val_pos hq
  have hnd := genreSales_keys_nodup st
  have hlen : (genreRanked st).length = (genreSales st).length := by
    rw [genreRanked, sortStats_length, genreEntries, List.length_map]
  have hval : ∀ g, genreVal (genreSales st) g = specAttr st g :=
    fun g => genreVal_eq_specAttr hwf g
  have hmost : (summarize st).most_book_sales_genre = none ↔ genreSales st = [] := by
    show (genreRanked st).head?.map GenreStat.genreName = none ↔ _
    rw [Option.map_eq_none', List.head?_eq_none_iff, ← List.length_eq_zero, hlen,
      List.length_eq_zero]
  have hzero : genreSales st = [] ↔ ∀ g : String, specAttr st g = 0 := by
    constructor
    · intro h g
      rw [← hval g, h]
      rfl
    · intro h
      cases hgs : genreSales st with
      | nil => rfl
      | cons e rest =>
        exfalso
        have hmem : e ∈ genreSales st := hgs ▸ List.mem_cons_self _ _
        have hfind : (genreSales st).find? (fun p => p.1 = e.1) = some e :=
          assoc3_find?_of_mem _ hnd e hmem
        have hv : genreVal (genreSales st) e.1 = e.2.2 := by simp [genreVal, hfind]
        have he : (0 : ℚ) < e.2.2 := hpos e hmem
        rw [hval e.1, h e.1] at hv
        exact absurd hv.symm (ne_of_gt he)
  have hfew : (summarize st).fewest_book_sales_genre = none ↔
      (genreSales st).length ≤ 1 := by
    show (if 1 < (genreRanked st).length then
        (genreRanked st).getLast?.map GenreStat.genreName else none) = none ↔ _
    by_cases hl : 1 < (genreRanked st).length
    · rw [if_pos hl]
      rw [Option.map_eq_none', List.getLast?_eq_none_iff, ← List.length_eq_zero]
      rw [hlen] at hl ⊢
      omega
    · rw [if_neg hl]
      rw [hlen] at hl
      constructor
      · intro _; omega
      · intro _; rfl
  have htwo : (genreSales st).length ≤ 1 ↔
      ¬ ∃ g1 g2 : String, g1 ≠ g2 ∧ specAttr st g1 ≠ 0 ∧ specAttr st g2 ≠ 0 := by
    constructor
    · intro hle
      rintro ⟨g1, g2, hne, h1, h2⟩
      rw [← hval g1] at h1
      rw [← hval g2] at h2
      rcases genreVal_ne_zero_find h1 with ⟨e1, -, he1mem, he1key⟩
      rcases genreVal_ne_zero_find h2 with ⟨e2, -, he2mem, he2key⟩
      have hee : e1 ≠ e2 := fun hh => hne (by rw [← he1key, ← he2key, hh])
      rcases hgs : genreSales st with - | ⟨x, rest⟩
      · rw [hgs] at he1mem; cases he1mem
      · rcases rest with - | ⟨y, rest'⟩
        · rw [hgs] at he1mem he2mem
          rw [List.mem_singleton] at he1mem he2mem
          exact hee (he1mem.trans he2mem.symm)
        · rw [hgs] at hle; simp at hle
    · intro hnex
      by_contra hgt
      rw [not_le] at hgt
      rcases hgs : genreSales st with - | ⟨e1, rest⟩
      · rw [hgs] at hgt; simp at hgt
      · rcases rest with - | ⟨e2, rest'⟩
        · rw [hgs] at hgt; simp at hgt
        · have he1mem : e1 ∈ genreSales st := hgs ▸ List.mem_cons_self _ _
          have he2mem : e2 ∈ genreSales st :=
            hgs ▸ List.mem_cons_of_mem _ (List.mem_cons_self _ _)
          have hnd2 := hnd
          rw [hgs] at hnd2
          have hkeys : e1.1 ≠ e2.1 := by
            rw [List.map_cons, List.map_cons, List.nodup_cons] at hnd2
            intro hh
            exact hnd2.1 (by rw [hh]; exact List.mem_cons_self _ _)
          have hv1 : genreVal (genreSales st) e1.1 = e1.2.2 := by
            simp [genreVal, assoc3_find?_of_mem _ hnd e1 he1mem]
          have hv2 : genreVal (genreSales st) e2.1 = e2.2.2 := by
            simp [genreVal, assoc3_find?_of_mem _ hnd e2 he2mem]
          refine hnex ⟨e1.1, e2.1, hkeys, ?_, ?_⟩
          · rw [← hval e1.1, hv1]; exact ne_of_gt (hpos e1 he1mem)
          · rw [← hval e2.1, hv2]; exact ne_of_gt (hpos e2 he2mem)
  exact ⟨hmost.trans hzero, hfew.trans htwo, rfl, rfl⟩

def c7State : State :=
  { users := []
    genres := [⟨"ga", "Alpha", false⟩, ⟨"gb", "Beta", false⟩]
    books := [⟨"b1", "Dune", 10, 5, "ga", false⟩, ⟨"b2", "Nova", 8, 5, "gb", false⟩]
    orders := [⟨0, "u1", 44, [⟨"b1", 2, 10⟩, ⟨"b2", 3, 8⟩]⟩] }

/-- Concrete run of the C7 theorem on a history with two sold genres. -/
theorem c7_best_worst_null_witness :
    ((c7State.books.map Book.id).Nodup ∧
      ∀ o ∈ c7State.orders, ∀ l ∈ o.order_items, 0 < l.quantity) ∧
    ((summarize c7State).most_book_sales_genre = none ↔
      ∀ g : String, specAttr c7State g = 0) :=
  ⟨⟨by decide, by decide⟩, (c7_best_worst_null c7State (by decide) (by decide)).1⟩

/-! ## The ranking comparator -/

/-- The comparator `(a, b) => b.bookSalesCount - a.bookSalesCount` orders by
descending sales count. -/
def statR (a b : GenreStat) : Prop :=
  b.bookSalesCount ≤ a.bookSalesCount

theorem mem_insertStat {a x : GenreStat} {l : List GenreStat} :
    a ∈ insertStat x l ↔ a = x ∨ a ∈ l := by
  induction l with
  | nil => simp [insertStat]
  | cons y ys ih =>
    rw [insertStat]
    split
    · simp [List.mem_cons]
    · rw [List.mem_cons, ih, List.mem_cons]
      tauto

theorem insertStat_pairwise {x : GenreStat} {l : List GenreStat}
    (h : List.Pairwise statR l) : List.Pairwise statR (insertStat x l) := by
  induction l with
  | nil => simp [insertStat, List.pairwise_cons]
  | cons y ys ih =>
    rcases List.pairwise_cons.mp h with ⟨hy, hys⟩
    rw [insertStat]
    by_cases hle : y.bookSalesCount ≤ x.bookSalesCount
    · rw [if_pos hle, List.pairwise_cons]
      refine ⟨?_, h⟩
      intro z hz
      rcases List.mem_cons.mp hz with hz | hz
      · subst hz; exact hle
      · exact le_trans (hy z hz) hle
    · rw [if_neg hle, List.pairwise_cons]
      refine ⟨?_, ih hys⟩
      intro z hz
      rcases mem_insertStat.mp hz with hz | hz
      · subst hz; exact le_of_lt (not_le.mp hle)
      · exact hy z hz

theorem sortStats_pairwise (l : List GenreStat) :
    List.Pairwise statR (sortStats l) := by
  induction l with
  | nil => exact List.Pairwise.nil
  | cons x xs ih => exact insertStat_pairwise ih

/-- The JS sort inserts each element before the first element whose count
is not larger, hence before every element with the same count that was
already placed; filtering any one count therefore returns the elements in
their pre-sort order. -/
theorem insertStat_filter (x : GenreStat) (l : List GenreStat) (c : ℚ) :
    (insertStat x l).filter (fun e => e.bookSalesCount = c) =
      if x.bookSalesCount = c then
        x :: l.filter (fun e => e.bookSalesCount = c)
      else l.filter (fun e => e.bookSalesCount = c) := by
  induction l with
  | nil =>
    by_cases h : x.bookSalesCount = c
    · rw [insertStat, if_pos h]
      simp [List.filter_cons, h]
    · rw [insertStat, if_neg h]
      simp [List.filter_cons, h]
  | cons y ys ih =>
    rw [insertStat]
    by_cases hle : y.bookSalesCount ≤ x.bookSalesCount
    · rw [if_pos hle]
      by_cases hx : x.bookSalesCount = c
      · rw [if_pos hx, List.filter_cons_of_pos (by simp [hx])]
      · rw [if_neg hx, List.filter_cons_of_neg (by simp [hx])]
    · rw [if_neg hle]
      have hlt : x.bookSalesCount < y.bookSalesCount := not_le.mp hle
      by_cases hy : y.bookSalesCount = c
      · have hx : ¬ x.bookSalesCount = c := by
          intro hh
          rw [hh, hy] at hlt
          exact lt_irrefl _ hlt
        rw [if_neg hx,
          List.filter_cons_of_pos (by simp [hy]),
          List.filter_cons_of_pos (by simp [hy]),
          ih, if_neg hx]
      · rw [List.filter_cons_of_neg (by simp [hy]),
          List.filter_cons_of_neg (by simp [hy]), ih]

theorem sortStats_filter (l : List GenreStat) (c : ℚ) :
    (sortStats l).filter (fun e => e.bookSalesCount = c) =
      l.filter (fun e => e.bookSalesCount = c) := by
  induction l with
  | nil => rfl
  | cons x xs ih =>
    rw [sortStats, insertStat_filter, List.filter_cons]
    by_cases h : x.bookSalesCount = c
    · rw [if_pos h, ih, if_pos (by simpa using h)]
    · rw [if_neg h, ih, if_neg (by simpa using h)]

/-- Claim C4 as amended: the ranked genre list is sorted by descending
attributed quantity, and genres with equal quantities keep the order in
which they first appear while aggregating the grouped order items (JS
`Array.prototype.sort` is stable and the comparator uses only the count) —
there is no tie-break by genre id. -/
theorem c4_stable_sort_ranking (st : State) :
    List.Pairwise statR (genreRanked st) ∧
    ∀ c : ℚ, (genreRanked st).filter (fun e => e.bookSalesCount = c) =
      (genreEntries st).filter (fun e => e.bookSalesCount = c) :=
  ⟨sortStats_pairwise _, fun c => sortStats_filter _ c⟩

def c4State : State :=
  { users := []
    genres := [⟨"ga", "Alpha", false⟩, ⟨"gb", "Beta", false⟩]
    books := [⟨"b1", "Dune", 10, 5, "gb", false⟩, ⟨"b2", "Nova", 8, 5, "ga", false⟩]
    orders := [⟨0, "u1", 36, [⟨"b1", 2, 10⟩, ⟨"b2", 2, 8⟩]⟩] }

/-- Counterexample to claim C4 as stated: genres `gb` and `ga` tie at
quantity 2, yet the ranked list is `[gb, ga]` — the first-aggregated genre
first — although `"ga" < "gb"`; ties are not broken by genre id
ascending. -/
theorem c4_tie_not_by_genre_id :
    (genreRanked c4State).map GenreStat.genreId = ["gb", "ga"] ∧
    (genreRanked c4State).map GenreStat.bookSalesCount = [2, 2] ∧
    "ga" < "gb" :=
  ⟨by decide, by decide, String.lt_iff_toList_lt.mpr (by decide)⟩

/-! ## Genre soft-deletion is invisible to the statistics -/

theorem bookGenre_genres_deleted (st : State) (f : String → Bool) (bid : String) :
    bookGenre
        { st with genres := st.genres.map fun g => { g with deleted := f g.id } } bid =
      bookGenre st bid := by
  unfold bookGenre
  cases hfb : st.books.find? (fun b => b.id = bid && !b.deleted) with
  | none => simp [hfb]
  | some b =>
    simp only [hfb, List.find?_map]
    have hcmp : ((fun g : Genre => decide (g.id = b.genre_id)) ∘
        fun g => { g with deleted := f g.id }) =
          fun g : Genre => decide (g.id = b.genre_id) := by
      funext g; rfl
    rw [hcmp, Option.map_map]
    rfl

theorem genreFold_congr {st1 st2 : State}
    (h : ∀ bid, bookGenre st1 bid = bookGenre st2 bid) :
    ∀ (grouped : List (String × ℚ)) (acc : List (String × String × ℚ)),
      genreFold st1 acc grouped = genreFold st2 acc grouped := by
  intro grouped
  induction grouped with
  | nil => intro acc; rfl
  | cons p rest ih =>
    intro acc
    obtain ⟨bid, q⟩ := p
    cases hbg : bookGenre st2 bid with
    | none =>
      simp only [genreFold, h bid, hbg]
      exact ih acc
    | some pr =>
      obtain ⟨gid, gname⟩ := pr
      simp only [genreFold, h bid, hbg]
      exact ih _

def c10State : State :=
  { users := []
    genres := [⟨"g1", "Horror", true⟩]
    books := [⟨"b1", "Dune", 10, 5, "g1", false⟩]
    orders := [⟨0, "u1", 30, [⟨"b1", 3, 10⟩]⟩] }

/-- Claim C10: genre soft-deletion never excludes a line from attribution —
the whole statistics output is invariant under arbitrary changes of the
genres' `deleted_at` flags — and concretely a live book whose genre is
soft-deleted still credits that genre, whose name surfaces as the
best-selling genre. -/
theorem c10_deleted_genre_attribution :
    (∀ (st : State) (f : String → Bool),
      summarize
          { st with genres := st.genres.map fun g => { g with deleted := f g.id } } =
        summarize st) ∧
    ((c10State.genres.all Genre.deleted) = true ∧
      (summarize c10State).most_book_sales_genre = some "Horror") := by
  constructor
  · intro st f
    have hg : genreSales
        { st with genres := st.genres.map fun g => { g with deleted := f g.id } } =
          genreSales st := by
      unfold genreSales
      exact genreFold_congr (fun bid => bookGenre_genres_deleted st f bid) _ []
    simp only [summarize, genreRanked, genreEntries, hg]
  · exact ⟨by decide, by decide⟩

/-! ## Paged listing (`getAllTransactions`) -/

def isJsSpace (c : Char) : Bool :=
  c = ' ' || c = '\t' || c = '\n' || c = '\r' || c = '\x0b' || c = '\x0c'

def digitVal? (c : Char) : Option Nat :=
  if '0' ≤ c ∧ c ≤ '9' then some (c.toNat - '0'.toNat) else none

def hexVal? (c : Char) : Option Nat :=
  if '0' ≤ c ∧ c ≤ '9' then some (c.toNat - '0'.toNat)
  else if 'a' ≤ c ∧ c ≤ 'f' then some (c.toNat - 'a'.toNat + 10)
  else if 'A' ≤ c ∧ c ≤ 'F' then some (c.toNat - 'A'.toNat + 10)
  else none

def parseDigits (f : Char → Option Nat) (base : Nat) :
    List Char → Option Nat → Option Nat
  | [], acc => acc
  | c :: cs, acc =>
    match f c with
    | some d => parseDigits f base cs (some (acc.getD 0 * base + d))
    | none => acc

/-- ECMAScript `parseInt` with no radix argument over ASCII input: skip
leading whitespace, read an optional sign, detect a `0x`/`0X` prefix, then
consume the longest digit prefix (the rest of the string is ignored, so
`"2.5"` parses as `2`); `none` models `NaN`. -/
def jsParseInt (s : String) : Option Int :=
  let cs := s.toList.dropWhile isJsSpace
  let sign : Int := if cs.head? = some '-' then -1 else 1
  let cs := if cs.head? = some '-' ∨ cs.head? = some '+' then cs.tail else cs
  match cs with
  | '0' :: 'x' :: rest => (parseDigits hexVal? 16 rest none).map fun n => sign * n
  | '0' :: 'X' :: rest => (parseDigits hexVal? 16 rest none).map fun n => sign * n
  | _ => (parseDigits digitVal? 10 cs none).map fun n => sign * n

/-- One element of the listing response. -/
structure TxSummary where
  id : Nat
  total_quantity : ℚ
  total_price : ℚ
deriving DecidableEq, Repr

/-- `getAllTransactions` for requests that pass no `search` or ordering
parameters (then `where` is empty and the ordering defaults to
`created_at desc`): `parseInt` both query values, reject `NaN` or
`page < 1`, reject `NaN`, `limit < 1` or `limit > 100`, otherwise return
the requested slice of the order list, newest first, as summaries.  The
rejection branches carry only the message — no data. -/
def getAllTransactions (st : State) (page limit : Option String) :
    Except String (List TxSummary) :=
  match jsParseInt (page.getD "1") with
  | none => .error "Invalid page number"
  | some p =>
    if p < 1 then .error "Invalid page number"
    else
      match jsParseInt (limit.getD "10") with
      | none => .error "Invalid limit (must be 1-100)"
      | some l =>
        if l < 1 ∨ 100 < l then .error "Invalid limit (must be 1-100)"
        else
          .ok ((((st.orders.reverse.drop ((p - 1) * l).toNat).take l.toNat).map fun o =>
            { id := o.id
              total_quantity := (o.order_items.map OrderItem.quantity).sum
              total_price := o.total_price }))

/-- A string that is literally a decimal integer numeral: optional sign
followed by nothing but digits.  This is the claim's reading of "the limit
parameter is an integer". -/
def decIntRepr (s : String) : Option Int :=
  let cs := s.toList
  let sign : Int := if cs.head? = some '-' then -1 else 1
  let ds := if cs.head? = some '-' ∨ cs.head? = some '+' then cs.tail else cs
  if ds ≠ [] ∧ ds.all (fun c => decide ('0' ≤ c) && decide (c ≤ '9')) then
    some (sign * (ds.foldl (fun acc c => acc * 10 + (c.toNat - '0'.toNat)) 0 : Nat))
  else none

def c9State : State :=
  { users := [], genres := [], books := []
    orders := [⟨0, "u1", 10, [⟨"b1", 2, 5⟩]⟩] }

/-- Counterexample to claim C9 as stated: `"2.5"` is not an integer at all,
let alone one between 1 and 100, yet the listing accepts it (`parseInt`
truncates it to `2`) and returns data instead of a client error. -/
theorem c9_noninteger_limit_accepted :
    decIntRepr "2.5" = none ∧
    ∃ l, getAllTransactions c9State (some "1") (some "2.5") = .ok l ∧ l.length = 1 := by
  refine ⟨by decide, _, rfl, rfl⟩

/-- Claim C9 as amended: the listing is rejected (with a client error and
no data) exactly when `parseInt(page)` is `NaN` or below 1, or
`parseInt(limit)` is `NaN`, below 1 or above 100; any string whose
`parseInt` truncation lands in range — including non-integer numerals such
as `"2.5"` — is accepted. -/
theorem c9_limit_bounds (st : State) (page limit : Option String) :
    (∃ e, getAllTransactions st page limit = .error e) ↔
      (¬ ∃ p : Int, jsParseInt (page.getD "1") = some p ∧ 1 ≤ p) ∨
      (¬ ∃ l : Int, jsParseInt (limit.getD "10") = some l ∧ 1 ≤ l ∧ l ≤ 100) := by
  cases hp : jsParseInt (page.getD "1") with
  | none =>
    simp only [getAllTransactions, hp]
    constructor
    · intro _
      left
      rintro ⟨p, hp', -⟩
      cases hp'
    · intro _
      exact ⟨"Invalid page number", rfl⟩
  | some p =>
    by_cases hp1 : p < 1
    · simp only [getAllTransactions, hp, if_pos hp1]
      constructor
      · intro _
        left
        rintro ⟨p', hp', hge⟩
        cases hp'
        omega
      · intro _
        exact ⟨"Invalid page number", rfl⟩
    · have hpge : 1 ≤ p := by omega
      cases hl : jsParseInt (limit.getD "10") with
      | none =>
        simp only [getAllTransactions, hp, if_neg hp1, hl]
        constructor
        · intro _
          right
          rintro ⟨l, hl', -⟩
          cases hl'
        · intro _
          exact ⟨"Invalid limit (must be 1-100)", rfl⟩
      | some l =>
        by_cases hl1 : l < 1 ∨ 100 < l
        · simp only [getAllTransactions, hp, if_neg hp1, hl, if_pos hl1]
          constructor
          · intro _
            right
            rintro ⟨l', hl', hb1, hb2⟩
            cases hl'
            omega
          · intro _
            exact ⟨"Invalid limit (must be 1-100)", rfl⟩
        · simp only [getAllTransactions, hp, if_neg hp1, hl, if_neg hl1]
          constructor
          · rintro ⟨e, he⟩
            cases he
          · rintro (hbad | hbad)
            · exact absurd ⟨p, rfl, hpge⟩ hbad
            · exact absurd ⟨l, rfl, by omega, by omega⟩ hbad

/-! ## Detail read (`getTransactionDetail`) and price snapshots -/

structure DetailItem where
  book_id : String
  book_title : String
  quantity : ℚ
  subtotal_price : ℚ
deriving DecidableEq, Repr

structure Detail where
  id : Nat
  items : List DetailItem
  total_quantity : ℚ
  total_price : ℚ
deriving DecidableEq, Repr

/-- `getTransactionDetail`: look the order up by id (`none` is the 404);
per line, the title comes from the joined book but `subtotal_price` is
`item.price * item.quantity` with the *stored* snapshot price, and
`total_price` is the stored order total. -/
def getTransactionDetail (st : State) (tid : Nat) : Option Detail :=
  (st.orders.find? (fun o => o.id = tid)).map fun tr =>
    { id := tr.id
      items := tr.order_items.map fun it =>
        { book_id := it.book_id
          book_title := ((st.books.find? (fun b => b.id = it.book_id)).map Book.title).getD ""
          quantity := it.quantity
          subtotal_price := it.price * it.quantity }
      total_quantity := (tr.order_items.map OrderItem.quantity).sum
      total_price := tr.total_price }

/-- Replace every book's price (keeping everything else), modelling
arbitrary later price edits through the book endpoints. -/
def updatePrices (st : State) (f : String → ℚ) : State :=
  { st with books := st.books.map fun b => { b with price := f b.id } }

/-- The money part of the detail response: the stored total and the line
subtotals. -/
def detailPriced (st : State) (tid : Nat) : Option (ℚ × List ℚ) :=
  (getTransactionDetail st tid).map fun d => (d.total_price, d.items.map DetailItem.subtotal_price)

/-- Claim C8: a committed order stores, per line, the price of the live
book at commit time; its `total_price` is the sum of snapshot price times
quantity; the detail read reports exactly those stored values; and editing
the books' prices afterwards changes neither the reported total nor any
subtotal. -/
theorem c8_price_snapshot (st : State) (req : CreateReq) (resp : OrderResp)
    (hwf : (st.books.map Book.id).Nodup)
    (hord : ∀ o ∈ st.orders, o.id < st.orders.length)
    (h : (createTransaction st req).2 = .ok resp) :
    ∃ o : Order,
      (createTransaction st req).1.orders = st.orders ++ [o] ∧
      (∀ l ∈ o.order_items, ∃ b ∈ st.books,
        b.deleted = false ∧ b.id = l.book_id ∧ l.price = b.price) ∧
      o.total_price = (o.order_items.map fun l => l.price * l.quantity).sum ∧
      detailPriced ((createTransaction st req).1) o.id =
        some (o.total_price, o.order_items.map fun l => l.price * l.quantity) ∧
      (∀ f : String → ℚ,
        detailPriced (updatePrices ((createTransaction st req).1) f) o.id =
          detailPriced ((createTransaction st req).1) o.id) := by
  cases hv : validationError st req with
  | some e => rw [createTransaction] at h; rw [hv] at h; cases h
  | none =>
    obtain ⟨-, -, -, hres, -⟩ := validationError_none_parts hwf hv
    have hfst : (createTransaction st req).1 = (commitTx st req).1 := by
      rw [createTransaction, hv]
    refine ⟨(commitTx st req).2, ?_, ?_, rfl, ?_, ?_⟩
    · rw [hfst]; rfl
    · intro l hl
      have hl' : l ∈ req.items.map (lineOf (fetchedBooks st req)) := hl
      rcases List.mem_map.mp hl' with ⟨it, hit, rfl⟩
      rcases find?_fetchedBooks hit hres with ⟨b, hfind, hbmem, hbid, hbdel⟩
      refine ⟨b, hbmem, hbdel, ?_, ?_⟩
      · rw [lineOf, hfind, hbid]
      · rw [lineOf, hfind]
    · -- the fresh order is found by the detail lookup
      have hfind : ((createTransaction st req).1.orders.find?
          (fun o => o.id = (commitTx st req).2.id)) = some (commitTx st req).2 := by
        rw [hfst]
        show ((st.orders ++ [(commitTx st req).2]).find?
          (fun o => o.id = (commitTx st req).2.id)) = _
        rw [List.find?_append]
        have hnone : st.orders.find? (fun o => o.id = (commitTx st req).2.id) = none := by
          rw [List.find?_eq_none]
          intro o ho
          have := hord o ho
          have hid : (commitTx st req).2.id = st.orders.length := rfl
          simp only [hid, decide_eq_true_eq]
          omega
        rw [hnone, Option.none_or]
        exact List.find?_cons_of_pos _ (by simp)
      simp only [detailPriced, getTransactionDetail, hfind, Option.map_some', List.map_map]
      rfl
    · intro f
      have horders : (updatePrices ((createTransaction st req).1) f).orders =
          (createTransaction st req).1.orders := rfl
      simp only [detailPriced, getTransactionDetail, horders]
      cases hfo : (createTransaction st req).1.orders.find?
          (fun o => o.id = (commitTx st req).2.id) with
      | none => rfl
      | some tr =>
        simp only [hfo, Option.map_some', List.map_map]
        rfl

def c8St : State :=
  { users := ["u1"], genres := []
    books := [⟨"b1", "Dune", 10, 5, "g1", false⟩], orders := [] }

def c8Req : CreateReq := { user_id := "u1", items := [⟨"b1", 3⟩] }

/-- Concrete run of the C8 theorem: a successful commit whose snapshot
prices, total and detail read satisfy all the stated properties. -/
theorem c8_price_snapshot_witness :
    ((c8St.books.map Book.id).Nodup ∧ ∀ o ∈ c8St.orders, o.id < c8St.orders.length) ∧
    ∃ resp, (createTransaction c8St c8Req).2 = .ok resp ∧
      ∃ o : Order,
        (createTransaction c8St c8Req).1.orders = c8St.orders ++ [o] ∧
        (∀ l ∈ o.order_items, ∃ b ∈ c8St.books,
          b.deleted = false ∧ b.id = l.book_id ∧ l.price = b.price) ∧
        o.total_price = (o.order_items.map fun l => l.price * l.quantity).sum ∧
        detailPriced ((createTransaction c8St c8Req).1) o.id =
          some (o.total_price, o.order_items.map fun l => l.price * l.quantity) ∧
        (∀ f : String → ℚ,
          detailPriced (updatePrices ((createTransaction c8St c8Req).1) f) o.id =
            detailPriced ((createTransaction c8St c8Req).1) o.id) :=
  ⟨⟨by decide, by decide⟩,
    _, rfl, c8_price_snapshot c8St c8Req _ (by decide) (by decide) rfl⟩
